import Mathlib

/-!
Formal model of the image-trace similarity analysis engine.

The definitions below are shallow embeddings of the Python sources
src/backend/app/routers_analysis.py (the unified analysis pipeline),
src/backend/app/feature_cache.py (the Redis feature cache), and
src/backend/core/application/use_cases/start_analysis.py together with
src/backend/core/infrastructure/services/simple_similarity.py (the
clean-architecture analysis use case).  Python floats are embedded as
exact rationals where the code is purely arithmetical, and as real
numbers where the code takes square roots (numpy norms).  Machine
conversions (int(), astype(uint16)) are embedded as explicit floors.
-/

namespace ImageTrace

/-- A single descriptor match as produced by the brute-force KNN matcher
(a cv2.DMatch): query descriptor index, train descriptor index and the
Hamming distance between the descriptors, embedded as an exact rational. -/
structure DMatch where
  queryIdx : Nat
  trainIdx : Nat
  distance : ℚ
deriving DecidableEq, Repr

/-- Ascending comparison on match distances, the key used by the Python
sort calls (sort by m.distance). -/
def distLe (a b : DMatch) : Bool := decide (a.distance ≤ b.distance)

/-- The linear-interpolation percentile computed by np.percentile: with
the data sorted ascending and h = (n - 1) * p / 100, the result is
s[floor h] + (h - floor h) * (s[ceil h] - s[floor h]). -/
def npPercentile (l : List ℚ) (p : ℚ) : ℚ :=
  let s := l.mergeSort (fun a b => decide (a ≤ b))
  let h : ℚ := ((l.length : ℚ) - 1) * p / 100
  let lo := (⌊h⌋).toNat
  let hi := (⌈h⌉).toNat
  s.getD lo 0 + (h - (⌊h⌋ : ℚ)) * (s.getD hi 0 - s.getD lo 0)

/-- Embedding of _get_dynamic_distance_threshold (routers_analysis.py
lines 70-81): a percentile of the match distances clamped to the interval
from 50 to 200, and 100 when there are no matches. -/
def dynamicDistanceThreshold (matchList : List DMatch) (p : ℚ) : ℚ :=
  if matchList = [] then 100
  else max 50 (min 200 (npPercentile (matchList.map (fun m => m.distance)) p))

/-- Embedding of _filter_high_quality_matches (routers_analysis.py lines
84-121).  The third layer drops matches whose distance z-score relative to
the surviving set exceeds 2; since the standard deviation is a square root
and leaves the rationals, the test abs ((d - mean) / std) < 2 with std > 0
is embedded as the equivalent comparison (d - mean) ^ 2 < 4 * variance
with variance > 0 (when the variance vanishes the Python code sets the
z-score to 0 and keeps the match, embedded as the true branch). -/
def filterHighQualityMatches (matchList : List DMatch) (imageSizeFactor : ℚ)
    (minMatches : Nat) : List DMatch :=
  if matchList.length < minMatches then matchList
  else
    let threshold := dynamicDistanceThreshold matchList 70
    let goodA := matchList.filter (fun m => decide (m.distance ≤ threshold))
    let sortedA := goodA.mergeSort distLe
    let keepFrac : ℚ := max (1/5) (min (1/2) (3/10 * imageSizeFactor))
    let maxKeep := max minMatches (⌊(sortedA.length : ℚ) * keepFrac⌋).toNat
    let goodB := sortedA.take maxKeep
    if 4 ≤ goodB.length then
      let ds := goodB.map (fun m => m.distance)
      let meanD := ds.sum / (ds.length : ℚ)
      let varD := (ds.map (fun d => (d - meanD) ^ 2)).sum / (ds.length : ℚ)
      let filtered := goodB.filter (fun m =>
        if 0 < varD then decide ((m.distance - meanD) ^ 2 < 4 * varD) else true)
      if minMatches ≤ filtered.length then filtered else goodB
    else goodB

/-- Embedding of _adaptive_screenshot_match_filter (routers_analysis.py
lines 331-362): in screenshot mode a loose 90th-percentile threshold, a
top-70-percent cut with a floor of 3, and a rescue branch that keeps the
3 closest raw matches; in normal mode the high-quality filter with its
default size factor 1.0 and minimum floor 10. -/
def adaptiveScreenshotMatchFilter (matchList : List DMatch)
    (screenshotMode : Bool) : List DMatch :=
  if matchList = [] then []
  else if screenshotMode then
    let threshold := dynamicDistanceThreshold matchList 90
    let minMatches := 3
    let goodA := (matchList.filter (fun m => decide (m.distance ≤ threshold))).mergeSort distLe
    let keepCount := max minMatches (⌊(goodA.length : ℚ) * (7/10)⌋).toNat
    let goodB := goodA.take keepCount
    if goodB.length < minMatches ∧ minMatches ≤ matchList.length then
      (matchList.mergeSort distLe).take minMatches
    else goodB
  else
    filterHighQualityMatches matchList 1 10

/-- Embedding of _compute_enhanced_similarity (routers_analysis.py lines
124-175), taking the list of match distances in place of the match
objects.  np.std of the distances is the square root of their variance
and in general irrational, so it is passed as the parameter std; the
theorems below quantify over the nonnegative values this parameter can
take. -/
def computeEnhancedSimilarity (distances : List ℚ)
    (des1Count des2Count inlierCount : Nat) (std : ℚ) : ℚ :=
  if distances = [] then 0
  else
    let minDescriptors := min des1Count des2Count
    let effectiveDescriptors : Nat := max 1 (min minDescriptors 2000)
    let matchFrac : ℚ := (distances.length : ℚ) / (effectiveDescriptors : ℚ)
    let inlierFrac : ℚ :=
      if 0 < inlierCount ∧ 0 < distances.length then
        (inlierCount : ℚ) / (distances.length : ℚ)
      else 0
    let avgDistance := distances.sum / (distances.length : ℚ)
    let distanceScore : ℚ := 1 / (1 + avgDistance / 50)
    let distanceConsistency : ℚ := 1 / (1 + std / 20)
    let wInlier : ℚ := if 0 < inlierCount then 11/20 else 0
    let totalWeight : ℚ := 1/4 + wInlier + 3/20 + 1/20
    let finalScore :=
      (1/4 / totalWeight) * matchFrac + (wInlier / totalWeight) * inlierFrac +
      (3/20 / totalWeight) * distanceScore + (1/20 / totalWeight) * distanceConsistency
    min 1 finalScore

/-- Embedding of the screenshot score bonus of _orb_pairwise_analysis
(routers_analysis.py lines 649-655): with at least 3 surviving matches in
a screenshot pair the score is multiplied by 1 + (count - 3) * 0.08 and
clamped to 1. -/
def screenshotBonus (score : ℚ) (count : Nat) (isScreenshotPair : Bool) : ℚ :=
  if isScreenshotPair ∧ 3 ≤ count then
    min 1 (score * (1 + ((count : ℚ) - 3) * (8/100)))
  else score

/-- Embedding of the cross-pair resolution-mismatch test of
_orb_pairwise_analysis (routers_analysis.py lines 510-525): when both
images have known positive dimensions, the pair is flagged when the area
quotient exceeds 1.3 or the larger of the width and height quotients
exceeds 1.5. -/
def pairMismatchFlag (a b : Nat × Nat) : Bool :=
  let w1 := a.1
  let h1 := a.2
  let w2 := b.1
  let h2 := b.2
  if 0 < w1 ∧ 0 < w2 ∧ 0 < h1 ∧ 0 < h2 then
    let area1 : ℚ := (w1 : ℚ) * (h1 : ℚ)
    let area2 : ℚ := (w2 : ℚ) * (h2 : ℚ)
    let areaQuot : ℚ := max area1 area2 / min area1 area2
    let widthQuot : ℚ := max (w1 : ℚ) (w2 : ℚ) / min (w1 : ℚ) (w2 : ℚ)
    let heightQuot : ℚ := max (h1 : ℚ) (h2 : ℚ) / min (h1 : ℚ) (h2 : ℚ)
    let maxDimensionQuot := max widthQuot heightQuot
    decide (13/10 < areaQuot ∨ 3/2 < maxDimensionQuot)
  else false

/-- All index pairs (i, j) with i < j < n in the iteration order of the
nested loops of _orb_pairwise_analysis (routers_analysis.py lines
508-509). -/
def orderedPairs (n : Nat) : List (Nat × Nat) :=
  ((List.range n).product (List.range n)).filter (fun ij => decide (ij.1 < ij.2))

/-- One iteration of the screenshot-mode forcing loop (routers_analysis.py
lines 510-531): a flagged pair sets both entries of the modes list. -/
def mismatchStep (sizes : List (Nat × Nat)) (ms : List Bool) (ij : Nat × Nat) : List Bool :=
  if pairMismatchFlag (sizes.getD ij.1 (0, 0)) (sizes.getD ij.2 (0, 0)) then
    (ms.set ij.1 true).set ij.2 true
  else ms

/-- Embedding of the screenshot-mode forcing pass of _orb_pairwise_analysis
(routers_analysis.py lines 504-531), guarded exactly as the code by the
presence of at least two recorded sizes. -/
def applyResolutionMismatch (sizes : List (Nat × Nat)) (modes : List Bool) : List Bool :=
  if 2 ≤ sizes.length then
    (orderedPairs sizes.length).foldl (mismatchStep sizes) modes
  else modes

/-- Embedding of the crop-pair heuristic of _orb_pairwise_analysis
(routers_analysis.py lines 594-604): the pair of image shapes looks like
a crop when the smaller area is below 0.65 of the larger and the aspect
quotients differ by less than 0.25; the guards against vanishing
denominators mirror the Python defaults (1.0). -/
def isCropPair (w1 h1 w2 h2 : Nat) : Bool :=
  let area1 : ℚ := (w1 : ℚ) * (h1 : ℚ)
  let area2 : ℚ := (w2 : ℚ) * (h2 : ℚ)
  let sizeQuot : ℚ := if 0 < max area1 area2 then min area1 area2 / max area1 area2 else 1
  let ar1 : ℚ := if 0 < h1 then (w1 : ℚ) / (h1 : ℚ) else 1
  let ar2 : ℚ := if 0 < h2 then (w2 : ℚ) / (h2 : ℚ) else 1
  let aspectDiff := |ar1 - ar2|
  decide (sizeQuot < 13/20 ∧ aspectDiff < 1/4)

/-- The Lowe ratio threshold of _orb_pairwise_analysis (routers_analysis.py
lines 611-614): 0.90 for screenshot or crop pairs, 0.85 otherwise. -/
def ratioThresholdFor (isScreenshotPair isCrop : Bool) : ℚ :=
  if isScreenshotPair || isCrop then 9/10 else 85/100

/-- Embedding of the ratio-test loop of _orb_pairwise_analysis
(routers_analysis.py lines 616-624): a KNN entry with two neighbors
contributes its best match when its distance beats the threshold times
the second distance, an entry with exactly one neighbor is accepted
unconditionally, and no other entry shape contributes. -/
def ratioTestFilter (knn : List (List DMatch)) (thr : ℚ) : List DMatch :=
  knn.flatMap (fun pair =>
    match pair with
    | [m, nm] => if m.distance < thr * nm.distance then [m] else []
    | [m] => [m]
    | _ => [])

/-- The per-pair region payload fields relevant to geometric verification:
the score and similarity written into the region, the visualized matches,
the presence of the projected quad and of the bounding box, the recorded
inlier count, and the update made to the similarity matrix entry of the
pair (none when the entry is left at the unverified score). -/
structure Region where
  score : ℚ
  matchList : List DMatch
  quadPresent : Bool
  bboxPresent : Bool
  inlierCount : Nat
  simUpdate : Option ℚ
deriving Repr

/-- The mode-dependent minimum inlier count of _orb_pairwise_analysis
(routers_analysis.py lines 676-685). -/
def minInliersFor (isScreenshotPair isCrop : Bool) : Nat :=
  if isScreenshotPair then 2 else if isCrop then 2 else 3

/-- The mode-dependent fallback discount of _orb_pairwise_analysis
(routers_analysis.py lines 823-839). -/
def fallbackFactor (isScreenshotPair isCrop : Bool) : ℚ :=
  if isScreenshotPair then 7/10 else if isCrop then 4/5 else 1/2

/-- The inlier matches selected by the RANSAC mask
(routers_analysis.py lines 693-698). -/
def maskSelect (goodMatches : List DMatch) (mask : List Bool) : List DMatch :=
  ((goodMatches.zip mask).filter (fun p => p.2)).map (fun p => p.1)

/-- Embedding of the geometric-verification tail of _orb_pairwise_analysis
(routers_analysis.py lines 661-841) for a pair with at least two good
matches.  The call to cv2.findHomography is abstracted as an oracle:
none when estimation fails and some mask when it returns an inlier mask
over the good matches.  In the verified branch the score is recomputed by
computeEnhancedSimilarity on the inlier matches (stdVis abstracts the
numpy standard deviation of their distances) and the similarity matrix
entry of the pair is overwritten; otherwise the region keeps the full
filtered match set, produces no quad and no bounding box, discounts the
unverified score by the mode factor, and leaves the matrix entry
untouched.  Exception paths inside the verified branch are not
modelled. -/
def finalizeRegion (isScreenshotPair isCrop : Bool) (score : ℚ)
    (goodMatches : List DMatch) (des1Count des2Count : Nat)
    (ransac : Option (List Bool)) (stdVis : ℚ) : Region :=
  match ransac with
  | some mask =>
    let inliers := mask.count true
    if minInliersFor isScreenshotPair isCrop ≤ inliers then
      let vis := maskSelect goodMatches mask
      let enhanced := computeEnhancedSimilarity (vis.map (fun m => m.distance))
        des1Count des2Count vis.length stdVis
      { score := enhanced, matchList := vis, quadPresent := true,
        bboxPresent := true, inlierCount := vis.length, simUpdate := some enhanced }
    else
      { score := score * fallbackFactor isScreenshotPair isCrop,
        matchList := goodMatches, quadPresent := false, bboxPresent := false,
        inlierCount := 0, simUpdate := none }
  | none =>
    { score := score * fallbackFactor isScreenshotPair isCrop,
      matchList := goodMatches, quadPresent := false, bboxPresent := false,
      inlierCount := 0, simUpdate := none }

/-- Head-seeded maximum of a rational list (np.max of a nonempty array;
the empty case is never reached by the compression). -/
def listMax : List ℚ → ℚ
  | [] => 0
  | x :: xs => xs.foldl max x

/-- Head-seeded minimum of a rational list (np.min of a nonempty array). -/
def listMin : List ℚ → ℚ
  | [] => 0
  | x :: xs => xs.foldl min x

/-- Embedding of ImageFeatureCache._compress_feature_vector
(feature_cache.py lines 194-209): an empty vector stays empty, values
outside the unit interval are min-max normalized, and each component is
scaled by 65535 and converted to an unsigned 16-bit integer.  The
conversion truncates toward zero, which on the nonnegative values reached
here is the floor. -/
def compressFeatureVector (v : List ℚ) : List Nat :=
  if v = [] then []
  else
    let vmax := listMax v
    let vmin := listMin v
    let arr := if 1 < vmax ∨ vmin < 0 then v.map (fun x => (x - vmin) / (vmax - vmin)) else v
    arr.map (fun x => (⌊x * 65535⌋).toNat)

/-- Embedding of ImageFeatureCache._decompress_feature_vector
(feature_cache.py lines 211-217): each stored integer is divided by
65535. -/
def decompressFeatureVector (c : List Nat) : List ℚ :=
  c.map (fun k : Nat => (k : ℚ) / 65535)

/-- Abstract per-image environment of one unified analysis run
(_run_analysis_task): the stored mime type, whether the MinIO download
succeeds, whether the fast features are already present in the Redis
cache, and whether PIL can decode the downloaded bytes. -/
structure ImgSpec where
  mimeType : Option String
  downloadOk : Bool
  cachedFast : Bool
  decodable : Bool
deriving DecidableEq, Repr

/-- The mime-type filter of _run_analysis_task (routers_analysis.py line
899): only records whose mime type starts with image/ count as actual
images.  The Python startswith test is embedded as a prefix test on the
character list of the string. -/
def isActualImage (s : ImgSpec) : Bool :=
  match s.mimeType with
  | some m => "image/".data.isPrefixOf m.data
  | none => false

/-- Observable outcome of one unified analysis run: the final status
string, whether an error message was recorded on the run, and the size of
the similarity matrix written to the results (none when no results were
written). -/
structure RunOutcome where
  status : String
  errorRecorded : Bool
  matrixSize : Option Nat
deriving DecidableEq, Repr

/-- Control-flow model of _run_analysis_task (routers_analysis.py lines
872-1090).  The body raises ValueError when the project has no records
with an image mime type (line 901) and when every MinIO download fails
(line 950); a downloaded image that is neither cached nor decodable makes
_compute_average_color raise inside _batch_compute_fast_features, and
asyncio.gather propagates that exception.  Every exception is caught by
the single handler at line 1057, which marks the run failed and records
an error message; otherwise the run completes and writes the blended
matrix over the downloaded images. -/
def runAnalysisTask (imgs : List ImgSpec) : RunOutcome :=
  let actual := imgs.filter isActualImage
  if actual = [] then
    { status := "failed", errorRecorded := true, matrixSize := none }
  else
    let downloaded := actual.filter (fun s => s.downloadOk)
    if downloaded = [] then
      { status := "failed", errorRecorded := true, matrixSize := none }
    else if downloaded.any (fun s => !s.cachedFast && !s.decodable) then
      { status := "failed", errorRecorded := true, matrixSize := none }
    else
      { status := "completed", errorRecorded := false, matrixSize := some downloaded.length }

/-- A fast feature vector of the clean-architecture core
(core/domain/entities.py, FeatureVector): mean color components and
average-hash bits. -/
structure FeatureVec where
  avgColor : List ℚ
  ahash : List Nat
deriving DecidableEq, Repr

/-- Embedding of the _hamming helper of simple_similarity.py (lines
10-15): distance 1.0 when either hash is empty, otherwise the fraction of
differing positions over the common length. -/
def hammingDistFrac (a b : List Nat) : ℚ :=
  if a = [] ∨ b = [] then 1
  else
    let size := min a.length b.length
    let dist := ((List.range size).filter (fun i => a.getD i 0 ≠ b.getD i 0)).length
    (dist : ℚ) / (size : ℚ)

noncomputable section

/-- Embedding of the _l2 helper of simple_similarity.py (lines 18-24):
distance 1.0 when either color vector is empty, otherwise the euclidean
norm of the componentwise difference over the common prefix, divided by
max(size, 1). -/
def l2DistFrac (a b : List ℚ) : ℝ :=
  if a = [] ∨ b = [] then 1
  else
    let size := min a.length b.length
    Real.sqrt (∑ i ∈ Finset.range size, ((a.getD i 0 : ℝ) - (b.getD i 0 : ℝ)) ^ 2)
      / (max size 1 : ℝ)

/-- Python round to 4 decimal places as used by SimpleSimilarity
(round(similarity, 4)).  Python rounds exact halves to even while
the round of Mathlib rounds them up; the two agree everywhere else and the
development only evaluates this at non-halfway points. -/
def pyRound4 (x : ℝ) : ℝ := ((round (x * 10000) : ℤ) : ℝ) / 10000

/-- Embedding of SimpleSimilarity._pair_score (simple_similarity.py lines
37-42): the mean of the color and hash distances is turned into
1 / (1 + combined) and rounded to 4 decimals. -/
def cleanPairScore (f1 f2 : FeatureVec) : ℝ :=
  let colorDist := l2DistFrac f1.avgColor f2.avgColor
  let ahashDist : ℝ := (hammingDistFrac f1.ahash f2.ahash : ℚ)
  let combined := (colorDist + ahashDist) / 2
  pyRound4 (1 / (1 + combined))

/-- Abstract per-image environment of one clean-architecture run
(StartAnalysisUseCase.execute): whether feature extraction (from the
cache or recomputed) succeeds, and the feature produced on success. -/
structure CleanImg where
  extractOk : Bool
  feat : FeatureVec
deriving DecidableEq

/-- Observable outcome of one clean-architecture run: status, final
progress, number of recorded per-image errors, the image ids of the
similarity matrix (modelled as positions in the image list of the project) and
the matrix scores. -/
structure CleanOutcome where
  status : String
  progress : ℚ
  errors : Nat
  matrixIds : Option (List Nat)
  matrixScores : Option (List (List ℝ))

/-- Control-flow model of StartAnalysisUseCase.execute
(core/application/use_cases/start_analysis.py lines 35-88).  With no
images the run completes immediately with no matrix and no errors.
Otherwise every per-image extraction failure is appended to the error
list and the image skipped; with no features at all the run fails, and
otherwise SimpleSimilarity.compute builds the matrix over the collected
features while the id list is taken from the first len(features) images
of the project list (imgs[: len(features)]). -/
def cleanRun (imgs : List CleanImg) : CleanOutcome :=
  if imgs = [] then
    { status := "completed", progress := 1, errors := 0,
      matrixIds := none, matrixScores := none }
  else
    let feats := (imgs.filter (fun s => s.extractOk)).map (fun s => s.feat)
    let errCount := (imgs.filter (fun s => !s.extractOk)).length
    if feats = [] then
      { status := "failed", progress := (imgs.length : ℚ) / ((imgs.length : ℚ) + 1),
        errors := errCount, matrixIds := none, matrixScores := none }
    else
      let n := feats.length
      { status := "completed", progress := 1, errors := errCount,
        matrixIds := some ((List.range imgs.length).take n),
        matrixScores := some ((List.range n).map (fun i => (List.range n).map (fun j =>
          cleanPairScore (feats.getD i ⟨[], []⟩) (feats.getD j ⟨[], []⟩)))) }

/-- Row norm of the stacked color matrix computed by
_cosine_similarity_matrix (routers_analysis.py line 449):
np.linalg.norm over each row of X. -/
def rowNorm (X : Nat → Nat → ℝ) (d i : Nat) : ℝ :=
  Real.sqrt (∑ k ∈ Finset.range d, X i k ^ 2)

/-- Entry (i, j) of _cosine_similarity_matrix (routers_analysis.py lines
445-452): every row is divided by its norm plus 1e-8 and the normalized
matrix is multiplied with its transpose. -/
def cosineSimEntry (X : Nat → Nat → ℝ) (d i j : Nat) : ℝ :=
  ∑ k ∈ Finset.range d,
    (X i k / (rowNorm X d i + 1 / 100000000)) * (X j k / (rowNorm X d j + 1 / 100000000))

/-- Number of differing hash bits between rows i and j of the stacked
hash matrix: np.count_nonzero(H[i] ^ H[j]) (routers_analysis.py line
465). -/
def hammingCount (H : Nat → Nat → Bool) (bitLen i j : Nat) : Nat :=
  ((Finset.range bitLen).filter (fun k => H i k ≠ H j k)).card

/-- Entry (i, j) of _ahash_similarity_matrix (routers_analysis.py lines
455-468): 1 on the diagonal and 1 minus the Hamming distance over the bit
length off it. -/
def ahashSimEntry (H : Nat → Nat → Bool) (bitLen i j : Nat) : ℝ :=
  if i = j then 1 else 1 - (hammingCount H bitLen i j : ℝ) / (bitLen : ℝ)

/-- Entry (i, j) of combined_fast_sim (routers_analysis.py lines
987-994): half the color cosine plus half the hash similarity. -/
def combinedFastEntry (X : Nat → Nat → ℝ) (d : Nat) (H : Nat → Nat → Bool)
    (bitLen i j : Nat) : ℝ :=
  1/2 * cosineSimEntry X d i j + 1/2 * ahashSimEntry H bitLen i j

/-- Entry (i, j) of the ORB similarity matrix assembled by
_orb_pairwise_analysis (routers_analysis.py lines 561-658 and 789): 1 on
the diagonal and a symmetric per-pair score off it.  The cv2-dependent
score of the unordered pair, produced by computeEnhancedSimilarity
followed by the screenshot bonus and the optional inlier recomputation,
is abstracted as pairScore on the ordered index pair. -/
def orbSimEntry (pairScore : Nat → Nat → ℝ) (i j : Nat) : ℝ :=
  if i = j then 1 else pairScore (min i j) (max i j)

/-- The dynamic-weight blend of _run_analysis_task (routers_analysis.py
lines 1013-1026). -/
def hybridScore (orb fastScore : ℝ) : ℝ :=
  if 3/10 < orb then 7/10 * orb + 3/10 * fastScore
  else if 1/10 < orb then 1/2 * orb + 1/2 * fastScore
  else 3/10 * orb + 7/10 * fastScore

/-- Entry (i, j) of the final blended similarity matrix written to the
analysis result (routers_analysis.py lines 1008-1029). -/
def finalSimEntry (X : Nat → Nat → ℝ) (d : Nat) (H : Nat → Nat → Bool)
    (bitLen : Nat) (pairScore : Nat → Nat → ℝ) (i j : Nat) : ℝ :=
  hybridScore (orbSimEntry pairScore i j) (combinedFastEntry X d H bitLen i j)

end

/-- C7: for every image pair, the final per-pair score is
0.7 * local + 0.3 * fast when the ORB score exceeds 0.3,
0.5 * local + 0.5 * fast when it exceeds 0.1 but is at most 0.3, and
0.3 * local + 0.7 * fast otherwise, where the fast score is the 50/50
combination of the color-cosine and hash-Hamming similarities. -/
theorem final_score_dynamic_blend (X : Nat → Nat → ℝ) (d : Nat)
    (H : Nat → Nat → Bool) (bitLen : Nat) (pairScore : Nat → Nat → ℝ) (i j : Nat) :
    (3/10 < orbSimEntry pairScore i j →
      finalSimEntry X d H bitLen pairScore i j
        = 7/10 * orbSimEntry pairScore i j
          + 3/10 * (1/2 * cosineSimEntry X d i j + 1/2 * ahashSimEntry H bitLen i j))
    ∧ (orbSimEntry pairScore i j ≤ 3/10 → 1/10 < orbSimEntry pairScore i j →
      finalSimEntry X d H bitLen pairScore i j
        = 1/2 * orbSimEntry pairScore i j
          + 1/2 * (1/2 * cosineSimEntry X d i j + 1/2 * ahashSimEntry H bitLen i j))
    ∧ (orbSimEntry pairScore i j ≤ 1/10 →
      finalSimEntry X d H bitLen pairScore i j
        = 3/10 * orbSimEntry pairScore i j
          + 7/10 * (1/2 * cosineSimEntry X d i j + 1/2 * ahashSimEntry H bitLen i j)) := by
  refine ⟨fun h => ?_, fun h1 h2 => ?_, fun h => ?_⟩
  · rw [finalSimEntry, hybridScore, if_pos h, combinedFastEntry]
  · rw [finalSimEntry, hybridScore, if_neg (not_lt.mpr h1), if_pos h2, combinedFastEntry]
  · rw [finalSimEntry, hybridScore, if_neg (not_lt.mpr (h.trans (by norm_num))),
      if_neg (not_lt.mpr h), combinedFastEntry]

/-- Witness for C7: the diagonal ORB entry is 1, which is in the high
tier, so the diagonal blend is 70 percent ORB and 30 percent fast. -/
theorem final_score_dynamic_blend_witness :
    (3/10 : ℝ) < orbSimEntry (fun _ _ => 0) 0 0 ∧
    finalSimEntry (fun _ _ => 0) 3 (fun _ _ => false) 64 (fun _ _ => 0) 0 0
      = 7/10 * orbSimEntry (fun _ _ => 0) 0 0
        + 3/10 * (1/2 * cosineSimEntry (fun _ _ => 0) 3 0 0
          + 1/2 * ahashSimEntry (fun _ _ => false) 64 0 0) := by
  have horb : orbSimEntry (fun _ _ => (0 : ℝ)) 0 0 = 1 := by simp [orbSimEntry]
  have htier : (3/10 : ℝ) < orbSimEntry (fun _ _ => 0) 0 0 := by rw [horb]; norm_num
  exact ⟨htier,
    (final_score_dynamic_blend (fun _ _ => 0) 3 (fun _ _ => false) 64 (fun _ _ => 0) 0 0).1 htier⟩

/-- C8: when homography estimation fails or yields fewer inliers than the
mode-dependent minimum, the region keeps the full filtered match set with
no quad and no bounding box, its similarity score is the unverified score
times 0.7 in screenshot mode, 0.8 for crop-like pairs and 0.5 otherwise,
and the similarity matrix entry of the pair is not updated. -/
theorem geometric_fallback_discount (ss cp : Bool) (score : ℚ)
    (goodMatches : List DMatch) (d1 d2 : Nat) (ransac : Option (List Bool)) (stdVis : ℚ)
    (hfail : ransac = none ∨
      ∃ mask, ransac = some mask ∧ mask.count true < minInliersFor ss cp) :
    (finalizeRegion ss cp score goodMatches d1 d2 ransac stdVis).score
        = score * (if ss then 7/10 else if cp then 4/5 else 1/2)
    ∧ (finalizeRegion ss cp score goodMatches d1 d2 ransac stdVis).matchList = goodMatches
    ∧ (finalizeRegion ss cp score goodMatches d1 d2 ransac stdVis).quadPresent = false
    ∧ (finalizeRegion ss cp score goodMatches d1 d2 ransac stdVis).bboxPresent = false
    ∧ (finalizeRegion ss cp score goodMatches d1 d2 ransac stdVis).simUpdate = none := by
  rcases hfail with h | ⟨mask, hm, hlt⟩
  · subst h
    exact ⟨rfl, rfl, rfl, rfl, rfl⟩
  · subst hm
    rw [finalizeRegion]
    rw [if_neg (Nat.not_le.mpr hlt)]
    exact ⟨rfl, rfl, rfl, rfl, rfl⟩

/-- Witness for C8: a pair in normal mode whose homography estimation
fails outright gets half the unverified score, keeps its matches and gets
no geometric region. -/
theorem geometric_fallback_discount_witness :
    (finalizeRegion false false (1/2) [⟨0, 0, 10⟩, ⟨1, 1, 20⟩] 5 5 none 0).score
        = (1/2 : ℚ) * (if false then 7/10 else if false then 4/5 else 1/2)
    ∧ (finalizeRegion false false (1/2) [⟨0, 0, 10⟩, ⟨1, 1, 20⟩] 5 5 none 0).matchList
        = [⟨0, 0, 10⟩, ⟨1, 1, 20⟩]
    ∧ (finalizeRegion false false (1/2) [⟨0, 0, 10⟩, ⟨1, 1, 20⟩] 5 5 none 0).quadPresent = false
    ∧ (finalizeRegion false false (1/2) [⟨0, 0, 10⟩, ⟨1, 1, 20⟩] 5 5 none 0).bboxPresent = false
    ∧ (finalizeRegion false false (1/2) [⟨0, 0, 10⟩, ⟨1, 1, 20⟩] 5 5 none 0).simUpdate = none :=
  geometric_fallback_discount false false (1/2) [⟨0, 0, 10⟩, ⟨1, 1, 20⟩] 5 5 none 0 (Or.inl rfl)

/-- C5: a KNN candidate with two neighbors is accepted exactly when the
best distance is below the context ratio times the second distance, a
candidate with a single neighbor is accepted unconditionally, the ratio
is 0.90 when either image is in screenshot mode or the pair is crop-like
and 0.85 otherwise, and crop-like means area quotient below 0.65 together
with aspect difference below 0.25. -/
theorem ratio_test_acceptance (ss cp : Bool) (m nm : DMatch)
    (pre post : List (List DMatch)) (w1 h1 w2 h2 : Nat) :
    (ratioTestFilter (pre ++ [m, nm] :: post) (ratioThresholdFor ss cp)
        = ratioTestFilter pre (ratioThresholdFor ss cp)
          ++ (if m.distance < ratioThresholdFor ss cp * nm.distance then [m] else [])
          ++ ratioTestFilter post (ratioThresholdFor ss cp))
    ∧ (ratioTestFilter (pre ++ [m] :: post) (ratioThresholdFor ss cp)
        = ratioTestFilter pre (ratioThresholdFor ss cp) ++ [m]
          ++ ratioTestFilter post (ratioThresholdFor ss cp))
    ∧ ratioThresholdFor ss cp = (if ss || cp then 9/10 else 85/100)
    ∧ (0 < w1 → 0 < h1 → 0 < w2 → 0 < h2 →
        (isCropPair w1 h1 w2 h2 = true ↔
          min ((w1 : ℚ) * h1) ((w2 : ℚ) * h2) / max ((w1 : ℚ) * h1) ((w2 : ℚ) * h2) < 13/20
          ∧ |(w1 : ℚ) / h1 - (w2 : ℚ) / h2| < 1/4)) := by
  refine ⟨?_, ?_, rfl, ?_⟩
  · simp [ratioTestFilter, List.flatMap_append]
  · simp [ratioTestFilter, List.flatMap_append]
  · intro hw1 hh1 hw2 hh2
    have ha1 : (0 : ℚ) < (w1 : ℚ) * h1 :=
      mul_pos (by exact_mod_cast hw1) (by exact_mod_cast hh1)
    have ha2 : (0 : ℚ) < (w2 : ℚ) * h2 :=
      mul_pos (by exact_mod_cast hw2) (by exact_mod_cast hh2)
    have hmax : (0 : ℚ) < max ((w1 : ℚ) * h1) ((w2 : ℚ) * h2) := lt_max_of_lt_left ha1
    rw [isCropPair]
    simp only [if_pos hmax, if_pos hh1, if_pos hh2, decide_eq_true_eq]

/-- Witness for C5: the crop characterization applies to the concrete
shapes 100 x 100 and 400 x 100, whose dimensions are all positive. -/
theorem ratio_test_acceptance_witness :
    (0 < 100 ∧ 0 < 100 ∧ 0 < 400 ∧ 0 < 100) ∧
    (isCropPair 100 100 400 100 = true ↔
      min ((100 : ℚ) * 100) ((400 : ℚ) * 100) / max ((100 : ℚ) * 100) ((400 : ℚ) * 100) < 13/20
      ∧ |(100 : ℚ) / 100 - (400 : ℚ) / 100| < 1/4) :=
  ⟨by decide,
    (ratio_test_acceptance false false ⟨0, 0, 10⟩ ⟨0, 1, 20⟩ [] [] 100 100 400 100).2.2.2
      (by decide) (by decide) (by decide) (by decide)⟩

/-- C6: for a nonempty match list the local similarity is the weighted sum
of the match fraction (count over the descriptor minimum capped at 2000),
the inlier fraction, the distance score and the consistency, with weights
0.25, 0.55, 0.15, 0.05 when inliers exist and the renormalized weights
5/9, 0, 1/3, 1/9 when the inlier count is zero, clamped to at most 1, and
the result always lies between 0 and 1. -/
theorem enhanced_similarity_weighted_sum (distances : List ℚ)
    (d1 d2 inl : Nat) (std : ℚ)
    (hne : distances ≠ []) (hpos : ∀ x ∈ distances, 0 ≤ x) (hstd : 0 ≤ std) :
    computeEnhancedSimilarity distances d1 d2 inl std
      = min 1 ((if 0 < inl then (1/4 : ℚ) else 5/9)
            * ((distances.length : ℚ) / ((max 1 (min (min d1 d2) 2000) : Nat) : ℚ))
          + (if 0 < inl then (11/20 : ℚ) else 0) * ((inl : ℚ) / (distances.length : ℚ))
          + (if 0 < inl then (3/20 : ℚ) else 1/3)
            * (1 / (1 + (distances.sum / (distances.length : ℚ)) / 50))
          + (if 0 < inl then (1/20 : ℚ) else 1/9) * (1 / (1 + std / 20)))
    ∧ 0 ≤ computeEnhancedSimilarity distances d1 d2 inl std
    ∧ computeEnhancedSimilarity distances d1 d2 inl std ≤ 1 := by
  have hlen : 0 < distances.length := List.length_pos.mpr hne
  have hlenQ : (0 : ℚ) < (distances.length : ℚ) := by exact_mod_cast hlen
  have heffQ : (0 : ℚ) < ((max 1 (min (min d1 d2) 2000) : Nat) : ℚ) := by
    have h : 0 < max 1 (min (min d1 d2) 2000) :=
      Nat.lt_of_lt_of_le Nat.zero_lt_one (Nat.le_max_left _ _)
    exact_mod_cast h
  have havg : 0 ≤ distances.sum / (distances.length : ℚ) :=
    div_nonneg (List.sum_nonneg hpos) hlenQ.le
  have hds : 0 < 1 + (distances.sum / (distances.length : ℚ)) / 50 := by
    have h := div_nonneg havg (by norm_num : (0 : ℚ) ≤ 50)
    linarith
  have hcs : 0 < 1 + std / 20 := by
    have h := div_nonneg hstd (by norm_num : (0 : ℚ) ≤ 20)
    linarith
  have heq : computeEnhancedSimilarity distances d1 d2 inl std
      = min 1 ((if 0 < inl then (1/4 : ℚ) else 5/9)
            * ((distances.length : ℚ) / ((max 1 (min (min d1 d2) 2000) : Nat) : ℚ))
          + (if 0 < inl then (11/20 : ℚ) else 0) * ((inl : ℚ) / (distances.length : ℚ))
          + (if 0 < inl then (3/20 : ℚ) else 1/3)
            * (1 / (1 + (distances.sum / (distances.length : ℚ)) / 50))
          + (if 0 < inl then (1/20 : ℚ) else 1/9) * (1 / (1 + std / 20))) := by
    rw [computeEnhancedSimilarity, if_neg hne]
    rcases Nat.eq_zero_or_pos inl with hz | hp
    · subst hz
      have h1 : ¬(0 < 0 ∧ 0 < distances.length) := fun h => absurd h.1 (lt_irrefl 0)
      have h2 : ¬(0 < (0 : Nat)) := lt_irrefl 0
      simp only [if_neg h1, if_neg h2]
      push_cast
      congr 1
      ring
    · have hcon : 0 < inl ∧ 0 < distances.length := ⟨hp, hlen⟩
      simp only [if_pos hp, if_pos hcon]
      congr 1
      ring
  refine ⟨heq, ?_, ?_⟩
  · rw [heq]
    have h1 : (0 : ℚ) ≤ (distances.length : ℚ) / ((max 1 (min (min d1 d2) 2000) : Nat) : ℚ) :=
      div_nonneg hlenQ.le heffQ.le
    have h2 : (0 : ℚ) ≤ (inl : ℚ) / (distances.length : ℚ) :=
      div_nonneg (Nat.cast_nonneg inl) hlenQ.le
    have h3 : (0 : ℚ) ≤ 1 / (1 + (distances.sum / (distances.length : ℚ)) / 50) :=
      (one_div_pos.mpr hds).le
    have h4 : (0 : ℚ) ≤ 1 / (1 + std / 20) := (one_div_pos.mpr hcs).le
    rcases Nat.eq_zero_or_pos inl with hz | hp
    · subst hz
      have h5 : ¬(0 < (0 : Nat)) := lt_irrefl 0
      simp only [if_neg h5]
      refine le_min (by norm_num) ?_
      nlinarith [h1, h2, h3, h4]
    · simp only [if_pos hp]
      refine le_min (by norm_num) ?_
      nlinarith [h1, h2, h3, h4]
  · rw [heq]
    exact min_le_left _ _

/-- Witness for C6: two matches of distance 50 between images with 10
descriptors each and no inliers give the renormalized-weight value. -/
theorem enhanced_similarity_weighted_sum_witness :
    (([50, 50] : List ℚ) ≠ [] ∧ (∀ x ∈ ([50, 50] : List ℚ), 0 ≤ x) ∧ (0 : ℚ) ≤ 0) ∧
    (computeEnhancedSimilarity [50, 50] 10 10 0 0
      = min 1 ((if 0 < 0 then (1/4 : ℚ) else 5/9)
            * ((([50, 50] : List ℚ).length : ℚ) / ((max 1 (min (min 10 10) 2000) : Nat) : ℚ))
          + (if 0 < 0 then (11/20 : ℚ) else 0) * (((0 : Nat) : ℚ) / (([50, 50] : List ℚ).length : ℚ))
          + (if 0 < 0 then (3/20 : ℚ) else 1/3)
            * (1 / (1 + (([50, 50] : List ℚ).sum / (([50, 50] : List ℚ).length : ℚ)) / 50))
          + (if 0 < 0 then (1/20 : ℚ) else 1/9) * (1 / (1 + (0 : ℚ) / 20)))
      ∧ 0 ≤ computeEnhancedSimilarity [50, 50] 10 10 0 0
      ∧ computeEnhancedSimilarity [50, 50] 10 10 0 0 ≤ 1) := by
  have hne : ([50, 50] : List ℚ) ≠ [] := by simp
  have hpos : ∀ x ∈ ([50, 50] : List ℚ), 0 ≤ x := by
    intro x hx
    rcases List.mem_cons.mp hx with h | h
    · rw [h]; norm_num
    · rcases List.mem_cons.mp h with h2 | h2
      · rw [h2]; norm_num
      · cases h2
  exact ⟨⟨hne, hpos, le_refl 0⟩,
    enhanced_similarity_weighted_sum [50, 50] 10 10 0 0 hne hpos (le_refl 0)⟩

/-- Folding max over a list stays below any common upper bound. -/
theorem foldl_max_le {xs : List ℚ} {a c : ℚ} (ha : a ≤ c) (h : ∀ x ∈ xs, x ≤ c) :
    xs.foldl max a ≤ c := by
  induction xs generalizing a with
  | nil => exact ha
  | cons y ys ih =>
    exact ih (max_le ha (h y (by simp))) (fun x hx => h x (by simp [hx]))

/-- Folding min over a list stays above any common lower bound. -/
theorem le_foldl_min {xs : List ℚ} {a c : ℚ} (ha : c ≤ a) (h : ∀ x ∈ xs, c ≤ x) :
    c ≤ xs.foldl min a := by
  induction xs generalizing a with
  | nil => exact ha
  | cons y ys ih =>
    exact ih (le_min ha (h y (by simp))) (fun x hx => h x (by simp [hx]))

/-- On a vector of unit-interval components the compression takes the
identity branch and floors each scaled component. -/
theorem compressFeatureVector_of_unit (v : List ℚ) (hv : ∀ x ∈ v, 0 ≤ x ∧ x ≤ 1) :
    compressFeatureVector v = v.map (fun x => (⌊x * 65535⌋).toNat) := by
  rcases v with _ | ⟨y, ys⟩
  · rfl
  · have hmax : listMax (y :: ys) ≤ 1 :=
      foldl_max_le (hv y (by simp)).2 (fun x hx => (hv x (by simp [hx])).2)
    have hmin : (0 : ℚ) ≤ listMin (y :: ys) :=
      le_foldl_min (hv y (by simp)).1 (fun x hx => (hv x (by simp [hx])).1)
    have hcond : ¬(1 < listMax (y :: ys) ∨ listMin (y :: ys) < 0) := by
      push_neg
      exact ⟨hmax, hmin⟩
    rw [compressFeatureVector]
    simp only [if_neg (by simp : ¬(y :: ys = [])), if_neg hcond]

/-- C9: decompressing the compressed form of an average-color vector with
unit-interval components returns a vector of the same length in which
every component differs from the original by at most 1/65535, so a cache
set followed by a get returns the stored color feature up to that
per-component quantization error. -/
theorem feature_vector_roundtrip (v : List ℚ) (hv : ∀ x ∈ v, 0 ≤ x ∧ x ≤ 1) :
    (decompressFeatureVector (compressFeatureVector v)).length = v.length
    ∧ ∀ i, i < v.length →
        |(decompressFeatureVector (compressFeatureVector v)).getD i 0 - v.getD i 0|
          ≤ 1 / 65535 := by
  have hc := compressFeatureVector_of_unit v hv
  rw [hc, decompressFeatureVector]
  constructor
  · simp
  · intro i hi
    have hfun : ((v.map (fun x => (⌊x * 65535⌋).toNat)).map (fun k : Nat => (k : ℚ) / 65535))
        = v.map (fun x => (((⌊x * 65535⌋).toNat : ℚ)) / 65535) := by
      rw [List.map_map]
      rfl
    rw [hfun]
    have hlt : i < (v.map (fun x => (((⌊x * 65535⌋).toNat : ℚ)) / 65535)).length := by
      simpa using hi
    rw [List.getD_eq_getElem?_getD, List.getElem?_eq_getElem hlt,
      List.getD_eq_getElem?_getD, List.getElem?_eq_getElem hi]
    simp only [List.getElem_map, Option.getD_some]
    set x := v[i] with hx
    have hmem : x ∈ v := by
      rw [hx]
      exact List.getElem_mem hi
    obtain ⟨hx0, hx1⟩ := hv x hmem
    have hy0 : (0 : ℚ) ≤ x * 65535 := by positivity
    have hfl0 : (0 : ℤ) ≤ ⌊x * 65535⌋ := Int.floor_nonneg.mpr hy0
    have hcast : (((⌊x * 65535⌋).toNat : ℚ)) = ((⌊x * 65535⌋ : ℤ) : ℚ) := by
      exact_mod_cast Int.toNat_of_nonneg hfl0
    rw [hcast]
    have hle : ((⌊x * 65535⌋ : ℤ) : ℚ) ≤ x * 65535 := Int.floor_le _
    have hgt : x * 65535 < ((⌊x * 65535⌋ : ℤ) : ℚ) + 1 := Int.lt_floor_add_one _
    rw [abs_le]
    constructor
    · linarith
    · linarith

/-- Witness for C9: the vector with the single component 1/2 compresses
to 32767 and decompresses to 32767/65535, within 1/65535 of the
original. -/
theorem feature_vector_roundtrip_witness :
    (∀ x ∈ ([1/2] : List ℚ), 0 ≤ x ∧ x ≤ 1) ∧
    (decompressFeatureVector (compressFeatureVector [1/2])).length = ([1/2] : List ℚ).length
    ∧ ∀ i, i < ([1/2] : List ℚ).length →
        |(decompressFeatureVector (compressFeatureVector [1/2])).getD i 0
          - ([1/2] : List ℚ).getD i 0| ≤ 1 / 65535 := by
  have hv : ∀ x ∈ ([1/2] : List ℚ), 0 ≤ x ∧ x ≤ 1 := by
    intro x hx
    rcases List.mem_cons.mp hx with h | h
    · rw [h]
      norm_num
    · cases h
  exact ⟨hv, feature_vector_roundtrip [1/2] hv⟩

/-- Writing true anywhere in a Bool list preserves a true read. -/
theorem getD_set_true (l : List Bool) (i k : Nat) (h : l.getD k false = true) :
    (l.set i true).getD k false = true := by
  induction l generalizing i k with
  | nil => simp at h
  | cons a as ih =>
    cases i with
    | zero =>
      cases k with
      | zero => rfl
      | succ k => simpa using h
    | succ i =>
      cases k with
      | zero => simpa using h
      | succ k => exact ih i k (by simpa using h)

/-- Writing true at an in-range position makes the read at that position
true. -/
theorem getD_set_self_true (l : List Bool) (i : Nat) (hi : i < l.length) :
    (l.set i true).getD i false = true := by
  induction l generalizing i with
  | nil => cases hi
  | cons a as ih =>
    cases i with
    | zero => rfl
    | succ i => exact ih i (by simpa using hi)

/-- One mismatch step keeps the length of the modes list. -/
theorem mismatchStep_length (sizes : List (Nat × Nat)) (ms : List Bool) (p : Nat × Nat) :
    (mismatchStep sizes ms p).length = ms.length := by
  rw [mismatchStep]
  split
  · simp
  · rfl

/-- The mismatch fold never clears a true entry. -/
theorem foldl_mismatch_preserve (sizes : List (Nat × Nat)) (ps : List (Nat × Nat))
    (ms : List Bool) (k : Nat) (h : ms.getD k false = true) :
    (ps.foldl (mismatchStep sizes) ms).getD k false = true := by
  induction ps generalizing ms with
  | nil => exact h
  | cons p ps ih =>
    apply ih
    rw [mismatchStep]
    split
    · exact getD_set_true _ _ _ (getD_set_true _ _ _ h)
    · exact h

/-- Every ordered pair below n occurs in the iteration list. -/
theorem mem_orderedPairs {n i j : Nat} (hij : i < j) (hj : j < n) :
    (i, j) ∈ orderedPairs n := by
  rw [orderedPairs]
  refine List.mem_filter.mpr ⟨?_, by simpa using hij⟩
  exact List.pair_mem_product.mpr ⟨List.mem_range.mpr (lt_trans hij hj), List.mem_range.mpr hj⟩

/-- Once the fold reaches a flagged pair with in-range indices, both
entries end up true. -/
theorem foldl_mismatch_sets (sizes : List (Nat × Nat)) (ps : List (Nat × Nat))
    (ms : List Bool) (i j : Nat) (hmem : (i, j) ∈ ps)
    (hflag : pairMismatchFlag (sizes.getD i (0, 0)) (sizes.getD j (0, 0)) = true)
    (hi : i < ms.length) (hj : j < ms.length) :
    (ps.foldl (mismatchStep sizes) ms).getD i false = true
    ∧ (ps.foldl (mismatchStep sizes) ms).getD j false = true := by
  induction ps generalizing ms with
  | nil => cases hmem
  | cons p ps ih =>
    rcases List.mem_cons.mp hmem with heq | hmem2
    · subst heq
      have hstepi : (mismatchStep sizes ms (i, j)).getD i false = true := by
        rw [mismatchStep]
        simp only [hflag, if_true]
        exact getD_set_true _ _ _ (getD_set_self_true ms i hi)
      have hstepj : (mismatchStep sizes ms (i, j)).getD j false = true := by
        rw [mismatchStep]
        simp only [hflag, if_true]
        exact getD_set_self_true _ j (by simpa using hj)
      exact ⟨foldl_mismatch_preserve sizes ps _ i hstepi,
        foldl_mismatch_preserve sizes ps _ j hstepj⟩
    · exact ih _ hmem2 (by rw [mismatchStep_length]; exact hi)
        (by rw [mismatchStep_length]; exact hj)

/-- C4: for every image pair with known positive dimensions whose area
quotient exceeds 1.3 or whose larger width or height quotient exceeds
1.5, the screenshot-mode forcing pass sets both images of the pair to
screenshot mode, whatever the per-image heuristic returned. -/
theorem resolution_mismatch_forces_both (sizes : List (Nat × Nat)) (modes : List Bool)
    (i j : Nat) (hij : i < j) (hj : j < sizes.length)
    (hlen : modes.length = sizes.length)
    (hw1 : 0 < (sizes.getD i (0, 0)).1) (hh1 : 0 < (sizes.getD i (0, 0)).2)
    (hw2 : 0 < (sizes.getD j (0, 0)).1) (hh2 : 0 < (sizes.getD j (0, 0)).2)
    (hcond :
      13/10 < max (((sizes.getD i (0, 0)).1 : ℚ) * ((sizes.getD i (0, 0)).2 : ℚ))
                  (((sizes.getD j (0, 0)).1 : ℚ) * ((sizes.getD j (0, 0)).2 : ℚ))
              / min (((sizes.getD i (0, 0)).1 : ℚ) * ((sizes.getD i (0, 0)).2 : ℚ))
                    (((sizes.getD j (0, 0)).1 : ℚ) * ((sizes.getD j (0, 0)).2 : ℚ))
      ∨ 3/2 < max (max ((sizes.getD i (0, 0)).1 : ℚ) ((sizes.getD j (0, 0)).1 : ℚ)
                    / min ((sizes.getD i (0, 0)).1 : ℚ) ((sizes.getD j (0, 0)).1 : ℚ))
                  (max ((sizes.getD i (0, 0)).2 : ℚ) ((sizes.getD j (0, 0)).2 : ℚ)
                    / min ((sizes.getD i (0, 0)).2 : ℚ) ((sizes.getD j (0, 0)).2 : ℚ))) :
    (applyResolutionMismatch sizes modes).getD i false = true
    ∧ (applyResolutionMismatch sizes modes).getD j false = true := by
  have hflag : pairMismatchFlag (sizes.getD i (0, 0)) (sizes.getD j (0, 0)) = true := by
    have hpos : 0 < (sizes.getD i (0, 0)).1 ∧ 0 < (sizes.getD j (0, 0)).1
        ∧ 0 < (sizes.getD i (0, 0)).2 ∧ 0 < (sizes.getD j (0, 0)).2 := ⟨hw1, hw2, hh1, hh2⟩
    rw [pairMismatchFlag]
    simp only [if_pos hpos, decide_eq_true_eq]
    exact hcond
  have h2 : 2 ≤ sizes.length := by omega
  rw [applyResolutionMismatch, if_pos h2]
  exact foldl_mismatch_sets sizes (orderedPairs sizes.length) modes i j
    (mem_orderedPairs hij hj) hflag (by omega) (by omega)

/-- Witness for C4: sizes 100 x 100 and 200 x 200 (area quotient 4) force
both images into screenshot mode even though both flags start false. -/
theorem resolution_mismatch_forces_both_witness :
    (0 < 1 ∧ 1 < 2 ∧ (13/10 : ℚ) < max ((100 : ℚ) * 100) ((200 : ℚ) * 200)
        / min ((100 : ℚ) * 100) ((200 : ℚ) * 200)) ∧
    (applyResolutionMismatch [(100, 100), (200, 200)] [false, false]).getD 0 false = true
    ∧ (applyResolutionMismatch [(100, 100), (200, 200)] [false, false]).getD 1 false = true := by
  have hc : (13/10 : ℚ) < max ((100 : ℚ) * 100) ((200 : ℚ) * 200)
      / min ((100 : ℚ) * 100) ((200 : ℚ) * 200) := by norm_num
  refine ⟨⟨Nat.zero_lt_one, Nat.one_lt_two, hc⟩, ?_⟩
  have h := resolution_mismatch_forces_both [(100, 100), (200, 200)] [false, false]
    0 1 Nat.zero_lt_one (by norm_num) rfl
    (by norm_num) (by norm_num) (by norm_num) (by norm_num)
    (by simp only [List.getD]; norm_num)
  exact h

/-- A take of a mergeSort result is a sub-multiset of the original
list. -/
theorem take_mergeSort_subperm (l : List DMatch) (le : DMatch → DMatch → Bool) (k : Nat) :
    List.Subperm ((l.mergeSort le).take k) l :=
  ((List.take_sublist k (l.mergeSort le)).subperm).trans (List.mergeSort_perm l le).subperm

/-- A filter result is a sub-multiset of the original list. -/
theorem filter_subperm (l : List DMatch) (P : DMatch → Bool) :
    List.Subperm (l.filter P) l :=
  (List.filter_sublist l).subperm

/-- Either branch of a list-valued if keeps a sub-multiset bound. -/
theorem ite_subperm {c : Prop} [Decidable c] {a b l : List DMatch}
    (ha : List.Subperm a l) (hb : List.Subperm b l) :
    List.Subperm (if c then a else b) l := by
  split
  · exact ha
  · exact hb

/-- The high-quality filter returns a sub-multiset of its input, and an
input below the floor is returned unchanged. -/
theorem filterHighQualityMatches_subperm (l : List DMatch) (f : ℚ) (minM : Nat) :
    List.Subperm (filterHighQualityMatches l f minM) l
    ∧ (l.length < minM → filterHighQualityMatches l f minM = l) := by
  have hB : ∀ k : Nat, List.Subperm
      ((l.filter (fun m =>
        decide (m.distance ≤ dynamicDistanceThreshold l 70))).mergeSort distLe |>.take k) l :=
    fun k => (List.Subperm.trans ((List.take_sublist _ _).subperm)
      ((List.mergeSort_perm _ _).subperm)).trans (filter_subperm _ _)
  constructor
  · rw [filterHighQualityMatches]
    split
    · exact List.Subperm.refl l
    · dsimp only
      exact ite_subperm
        (ite_subperm (List.Subperm.trans (filter_subperm _ _) (hB _)) (hB _)) (hB _)
  · intro h
    rw [filterHighQualityMatches, if_pos h]

/-- C10: the adaptive match filter returns a sub-multiset of its input
(so every returned query/train index pair occurs in the input), an input
below the normal-mode floor of 10 is returned unchanged, and in
screenshot mode an input of at least 3 matches yields at least 3
matches. -/
theorem adaptive_filter_subperm_and_floors (matchList : List DMatch) (mode : Bool) :
    List.Subperm (adaptiveScreenshotMatchFilter matchList mode) matchList
    ∧ (∀ m ∈ adaptiveScreenshotMatchFilter matchList mode, m ∈ matchList)
    ∧ (matchList.length < 10 → adaptiveScreenshotMatchFilter matchList false = matchList)
    ∧ (3 ≤ matchList.length →
        3 ≤ (adaptiveScreenshotMatchFilter matchList true).length) := by
  have hsub : ∀ b : Bool, List.Subperm (adaptiveScreenshotMatchFilter matchList b) matchList := by
    intro b
    rw [adaptiveScreenshotMatchFilter]
    split
    · simp
    · split
      · dsimp only
        exact ite_subperm (take_mergeSort_subperm matchList distLe 3)
          ((List.Subperm.trans ((List.take_sublist _ _).subperm)
            ((List.mergeSort_perm _ _).subperm)).trans (filter_subperm _ _))
      · exact (filterHighQualityMatches_subperm matchList 1 10).1
  refine ⟨hsub mode, fun m hm => (hsub mode).subset hm, ?_, ?_⟩
  · intro h
    rw [adaptiveScreenshotMatchFilter]
    split
    · simp_all
    · split
      · simp_all
      · exact (filterHighQualityMatches_subperm matchList 1 10).2 h
  · intro h3
    have hne : matchList ≠ [] := by
      intro hnil
      rw [hnil] at h3
      simp at h3
    rw [adaptiveScreenshotMatchFilter, if_neg hne, if_pos rfl]
    dsimp only
    split
    · rw [List.length_take, List.length_mergeSort]
      omega
    · rename_i hcase
      rw [not_and_or] at hcase
      rcases hcase with h | h
      · rw [List.length_take] at h ⊢
        omega
      · exact absurd h3 h

/-- Witness for C10: a three-element match list is below the normal-mode
floor and is returned unchanged, and in screenshot mode it keeps at least
3 matches. -/
theorem adaptive_filter_subperm_and_floors_witness :
    (([⟨0, 0, 10⟩, ⟨1, 1, 20⟩, ⟨2, 2, 30⟩] : List DMatch).length < 10
      ∧ adaptiveScreenshotMatchFilter [⟨0, 0, 10⟩, ⟨1, 1, 20⟩, ⟨2, 2, 30⟩] false
          = [⟨0, 0, 10⟩, ⟨1, 1, 20⟩, ⟨2, 2, 30⟩])
    ∧ (3 ≤ ([⟨0, 0, 10⟩, ⟨1, 1, 20⟩, ⟨2, 2, 30⟩] : List DMatch).length
      ∧ 3 ≤ (adaptiveScreenshotMatchFilter [⟨0, 0, 10⟩, ⟨1, 1, 20⟩, ⟨2, 2, 30⟩] true).length) :=
  ⟨⟨by decide,
    (adaptive_filter_subperm_and_floors [⟨0, 0, 10⟩, ⟨1, 1, 20⟩, ⟨2, 2, 30⟩] false).2.2.1
      (by decide)⟩,
   ⟨by decide,
    (adaptive_filter_subperm_and_floors [⟨0, 0, 10⟩, ⟨1, 1, 20⟩, ⟨2, 2, 30⟩] true).2.2.2
      (by decide)⟩⟩

/-- The hash self-distance of a nonempty hash vanishes. -/
theorem hammingDistFrac_self (a : List Nat) (ha : a ≠ []) : hammingDistFrac a a = 0 := by
  rw [hammingDistFrac, if_neg (by simp [ha])]
  simp

/-- The color self-distance of a nonempty color vector vanishes. -/
theorem l2DistFrac_self (a : List ℚ) (ha : a ≠ []) : l2DistFrac a a = 0 := by
  rw [l2DistFrac, if_neg (by simp [ha])]
  simp

/-- Rounding the real number 1 to four decimals gives 1. -/
theorem pyRound4_one : pyRound4 1 = 1 := by
  rw [pyRound4, one_mul, show (10000 : ℝ) = ((10000 : ℤ) : ℝ) by norm_num, round_intCast]
  norm_num

/-- The clean pair score of a feature against itself is exactly 1 when
both components are nonempty. -/
theorem cleanPairScore_self (f : FeatureVec) (hc : f.avgColor ≠ []) (hh : f.ahash ≠ []) :
    cleanPairScore f f = 1 := by
  rw [cleanPairScore, l2DistFrac_self _ hc, hammingDistFrac_self _ hh]
  norm_num [pyRound4_one]

/-- C2 counterexample: the unified analysis task of a project with zero
available images terminates with status failed (the body raises
ValueError at line 901) and an error message, not with status completed
as the claim states. -/
theorem zero_images_run_fails_counterexample :
    (runAnalysisTask []).status = "failed"
    ∧ (runAnalysisTask []).status ≠ "completed"
    ∧ (runAnalysisTask []).errorRecorded = true
    ∧ (runAnalysisTask []).matrixSize = none := by
  refine ⟨rfl, ?_, rfl, rfl⟩
  decide

/-- C2 corrected: with zero available images the clean-architecture use
case completes with full progress, no matrix and no errors, while the
unified background task terminates with status failed and an error
message recorded. -/
theorem zero_images_clean_completed_unified_failed :
    ((cleanRun []).status = "completed" ∧ (cleanRun []).progress = 1
      ∧ (cleanRun []).errors = 0 ∧ (cleanRun []).matrixIds = none
      ∧ (cleanRun []).matrixScores = none)
    ∧ (∀ imgs : List ImgSpec, imgs.filter isActualImage = [] →
        runAnalysisTask imgs
          = { status := "failed", errorRecorded := true, matrixSize := none }) := by
  refine ⟨⟨rfl, rfl, rfl, rfl, rfl⟩, ?_⟩
  intro imgs h
  rw [runAnalysisTask]
  simp only [h, if_pos]

/-- Witness for the corrected C2: the empty image list satisfies the
empty-filter hypothesis and the unified task fails on it. -/
theorem zero_images_clean_completed_unified_failed_witness :
    (([] : List ImgSpec).filter isActualImage = []) ∧
    runAnalysisTask [] = { status := "failed", errorRecorded := true, matrixSize := none } :=
  ⟨rfl, zero_images_clean_completed_unified_failed.2 [] rfl⟩

/-- C3 counterexample: one corrupt image (downloadable, not cached, not
decodable) together with a valid image makes the unified analysis task
fail as a whole: PIL raises inside the fast-feature phase, the exception
propagates through asyncio.gather, and the run is marked failed with no
similarity matrix, contrary to the claimed completed run with a 1 x 1
matrix. -/
theorem corrupt_image_run_fails_counterexample :
    (runAnalysisTask [⟨some "image/png", true, false, false⟩,
        ⟨some "image/png", true, false, true⟩]).status = "failed"
    ∧ (runAnalysisTask [⟨some "image/png", true, false, false⟩,
        ⟨some "image/png", true, false, true⟩]).status ≠ "completed"
    ∧ (runAnalysisTask [⟨some "image/png", true, false, false⟩,
        ⟨some "image/png", true, false, true⟩]).matrixSize = none := by
  refine ⟨by decide, by decide, by decide⟩

/-- C3 corrected: the clean-architecture use case realizes the claimed
behavior when the corrupt image comes after the valid one: the run
completes, one error is recorded and the matrix is 1 x 1 with score 1.
Its id list however is taken from the first len(features) images, so with
the corrupt image first the only matrix id is position 0, the corrupt
image itself.  The unified task instead fails the whole run. -/
theorem corrupt_image_clean_vs_unified (valid corrupt : CleanImg)
    (hvE : valid.extractOk = true) (hcE : corrupt.extractOk = false)
    (hvc : valid.feat.avgColor ≠ []) (hvh : valid.feat.ahash ≠ [])
    (corruptU validU : ImgSpec)
    (hcu1 : isActualImage corruptU = true) (hcu2 : corruptU.downloadOk = true)
    (hcu3 : corruptU.cachedFast = false) (hcu4 : corruptU.decodable = false)
    (hvu1 : isActualImage validU = true) :
    ((cleanRun [valid, corrupt]).status = "completed"
      ∧ (cleanRun [valid, corrupt]).errors = 1
      ∧ (cleanRun [valid, corrupt]).matrixIds = some [0]
      ∧ (cleanRun [valid, corrupt]).matrixScores = some [[1]])
    ∧ (cleanRun [corrupt, valid]).matrixIds = some [0]
    ∧ (runAnalysisTask [corruptU, validU]).status = "failed" := by
  have hvc1 : cleanRun [valid, corrupt]
      = { status := "completed", progress := 1, errors := 1,
          matrixIds := some [0],
          matrixScores := some [[cleanPairScore valid.feat valid.feat]] } := by
    rw [cleanRun, if_neg (by simp)]
    simp only [List.filter_cons, List.filter_nil, hvE, hcE, Bool.not_true, Bool.not_false,
      if_pos, if_neg, Bool.false_eq_true, not_false_eq_true, List.map_cons, List.map_nil,
      List.length_cons, List.length_nil, ite_true, ite_false]
    rw [if_neg (by simp)]
    rfl
  have hvc2 : cleanRun [corrupt, valid]
      = { status := "completed", progress := 1, errors := 1,
          matrixIds := some [0],
          matrixScores := some [[cleanPairScore valid.feat valid.feat]] } := by
    rw [cleanRun, if_neg (by simp)]
    simp only [List.filter_cons, List.filter_nil, hvE, hcE, Bool.not_true, Bool.not_false,
      if_pos, if_neg, Bool.false_eq_true, not_false_eq_true, List.map_cons, List.map_nil,
      List.length_cons, List.length_nil, ite_true, ite_false]
    rw [if_neg (by simp)]
    rfl
  have hscore : cleanPairScore valid.feat valid.feat = 1 := cleanPairScore_self _ hvc hvh
  refine ⟨⟨?_, ?_, ?_, ?_⟩, ?_, ?_⟩
  · rw [hvc1]
  · rw [hvc1]
  · rw [hvc1]
  · rw [hvc1, hscore]
  · rw [hvc2]
  · have hact : [corruptU, validU].filter isActualImage = [corruptU, validU] := by
      simp [List.filter_cons, hcu1, hvu1]
    rw [runAnalysisTask]
    simp only [hact]
    rw [if_neg (by simp)]
    have hdl : [corruptU, validU].filter (fun s => s.downloadOk)
        = corruptU :: ([validU].filter (fun s => s.downloadOk)) := by
      simp [List.filter_cons, hcu2]
    simp only [hdl]
    rw [if_neg (by simp)]
    have hany : (corruptU :: ([validU].filter (fun s => s.downloadOk))).any
        (fun s => !s.cachedFast && !s.decodable) = true := by
      simp [hcu3, hcu4]
    simp only [hany, if_pos]

/-- Witness for the corrected C3: a concrete valid feature and a corrupt
image realize every hypothesis. -/
theorem corrupt_image_clean_vs_unified_witness :
    ((cleanRun [⟨true, ⟨[1/2], [0, 1]⟩⟩, ⟨false, ⟨[], []⟩⟩]).status = "completed"
      ∧ (cleanRun [⟨true, ⟨[1/2], [0, 1]⟩⟩, ⟨false, ⟨[], []⟩⟩]).errors = 1
      ∧ (cleanRun [⟨true, ⟨[1/2], [0, 1]⟩⟩, ⟨false, ⟨[], []⟩⟩]).matrixIds = some [0]
      ∧ (cleanRun [⟨true, ⟨[1/2], [0, 1]⟩⟩, ⟨false, ⟨[], []⟩⟩]).matrixScores = some [[1]])
    ∧ (cleanRun [⟨false, ⟨[], []⟩⟩, ⟨true, ⟨[1/2], [0, 1]⟩⟩]).matrixIds = some [0]
    ∧ (runAnalysisTask [⟨some "image/png", true, false, false⟩,
        ⟨some "image/jpeg", true, false, true⟩]).status = "failed" :=
  corrupt_image_clean_vs_unified ⟨true, ⟨[1/2], [0, 1]⟩⟩ ⟨false, ⟨[], []⟩⟩
    rfl rfl (by simp) (by simp)
    ⟨some "image/png", true, false, false⟩ ⟨some "image/jpeg", true, false, true⟩
    (by decide) rfl rfl rfl (by decide)

/-- Row norms are nonnegative. -/
theorem rowNorm_nonneg (X : Nat → Nat → ℝ) (d i : Nat) : 0 ≤ rowNorm X d i :=
  Real.sqrt_nonneg _

/-- The normalization denominator norm + 1e-8 is positive. -/
theorem cosDenomPos (X : Nat → Nat → ℝ) (d i : Nat) :
    0 < rowNorm X d i + 1 / 100000000 :=
  add_pos_of_nonneg_of_pos (rowNorm_nonneg X d i) (by norm_num)

/-- The cosine entry is the dot product over the product of the shifted
norms. -/
theorem cosineSimEntry_eq (X : Nat → Nat → ℝ) (d i j : Nat) :
    cosineSimEntry X d i j
      = (∑ k ∈ Finset.range d, X i k * X j k)
        / ((rowNorm X d i + 1 / 100000000) * (rowNorm X d j + 1 / 100000000)) := by
  rw [cosineSimEntry]
  simp_rw [div_mul_div_comm]
  rw [← Finset.sum_div]

/-- The cosine entry is symmetric. -/
theorem cosineSimEntry_comm (X : Nat → Nat → ℝ) (d i j : Nat) :
    cosineSimEntry X d i j = cosineSimEntry X d j i := by
  rw [cosineSimEntry, cosineSimEntry]
  exact Finset.sum_congr rfl fun k _ => mul_comm _ _

/-- With nonnegative entries the cosine entry is nonnegative. -/
theorem cosineSimEntry_nonneg (X : Nat → Nat → ℝ) (d i j : Nat)
    (hX : ∀ a b, 0 ≤ X a b) : 0 ≤ cosineSimEntry X d i j :=
  Finset.sum_nonneg fun k _ => mul_nonneg
    (div_nonneg (hX i k) (cosDenomPos X d i).le)
    (div_nonneg (hX j k) (cosDenomPos X d j).le)

/-- Cauchy-Schwarz: the dot product of two rows is at most the product of
their norms. -/
theorem dot_le_norm_mul_norm (X : Nat → Nat → ℝ) (d i j : Nat) :
    (∑ k ∈ Finset.range d, X i k * X j k) ≤ rowNorm X d i * rowNorm X d j := by
  have h := Real.sum_mul_le_sqrt_mul_sqrt (Finset.range d) (fun k => X i k) (fun k => X j k)
  simpa [rowNorm] using h

/-- Every cosine entry is at most 1. -/
theorem cosineSimEntry_le_one (X : Nat → Nat → ℝ) (d i j : Nat) :
    cosineSimEntry X d i j ≤ 1 := by
  rw [cosineSimEntry_eq, div_le_one (mul_pos (cosDenomPos X d i) (cosDenomPos X d j))]
  calc (∑ k ∈ Finset.range d, X i k * X j k)
      ≤ rowNorm X d i * rowNorm X d j := dot_le_norm_mul_norm X d i j
    _ ≤ (rowNorm X d i + 1 / 100000000) * (rowNorm X d j + 1 / 100000000) :=
        mul_le_mul (le_add_of_nonneg_right (by norm_num))
          (le_add_of_nonneg_right (by norm_num)) (rowNorm_nonneg X d j)
          (cosDenomPos X d i).le

/-- The diagonal cosine entry is nonnegative. -/
theorem cosineSimEntry_diag_nonneg (X : Nat → Nat → ℝ) (d i : Nat) :
    0 ≤ cosineSimEntry X d i i := by
  rw [cosineSimEntry]
  exact Finset.sum_nonneg fun k _ => mul_self_nonneg _

/-- The diagonal cosine entry is strictly below 1: the numerator is the
squared norm while the denominator is the squared norm shifted by
1e-8. -/
theorem cosineSimEntry_diag_lt_one (X : Nat → Nat → ℝ) (d i : Nat) :
    cosineSimEntry X d i i < 1 := by
  rw [cosineSimEntry_eq, div_lt_one (mul_pos (cosDenomPos X d i) (cosDenomPos X d i))]
  have hsum : (∑ k ∈ Finset.range d, X i k * X i k)
      = ∑ k ∈ Finset.range d, X i k ^ 2 :=
    Finset.sum_congr rfl fun k _ => (pow_two (X i k)).symm
  rw [hsum]
  have hS : 0 ≤ ∑ k ∈ Finset.range d, X i k ^ 2 :=
    Finset.sum_nonneg fun k _ => sq_nonneg _
  have hN : rowNorm X d i ^ 2 = ∑ k ∈ Finset.range d, X i k ^ 2 := Real.sq_sqrt hS
  rw [← hN]
  nlinarith [rowNorm_nonneg X d i]

/-- The Hamming count is symmetric. -/
theorem hammingCount_comm (H : Nat → Nat → Bool) (bitLen i j : Nat) :
    hammingCount H bitLen i j = hammingCount H bitLen j i := by
  rw [hammingCount, hammingCount]
  congr 1
  exact Finset.filter_congr fun k _ => ne_comm

/-- The hash similarity entry is symmetric. -/
theorem ahashSimEntry_comm (H : Nat → Nat → Bool) (bitLen i j : Nat) :
    ahashSimEntry H bitLen i j = ahashSimEntry H bitLen j i := by
  rw [ahashSimEntry, ahashSimEntry]
  by_cases h : i = j
  · subst h
    rfl
  · rw [if_neg h, if_neg (fun hc => h hc.symm), hammingCount_comm]

/-- Every hash similarity entry lies between 0 and 1. -/
theorem ahashSimEntry_mem (H : Nat → Nat → Bool) (bitLen i j : Nat) :
    0 ≤ ahashSimEntry H bitLen i j ∧ ahashSimEntry H bitLen i j ≤ 1 := by
  rw [ahashSimEntry]
  split
  · norm_num
  · rcases Nat.eq_zero_or_pos bitLen with h0 | hpos
    · subst h0
      have hz : hammingCount H 0 i j = 0 := by
        rw [hammingCount]
        simp
      rw [hz]
      norm_num
    · have hle : hammingCount H bitLen i j ≤ bitLen := by
        rw [hammingCount]
        calc ((Finset.range bitLen).filter (fun k => H i k ≠ H j k)).card
            ≤ (Finset.range bitLen).card := Finset.card_filter_le _ _
          _ = bitLen := Finset.card_range _
      have hbQ : (0 : ℝ) < (bitLen : ℝ) := by exact_mod_cast hpos
      have hdiv1 : (hammingCount H bitLen i j : ℝ) / (bitLen : ℝ) ≤ 1 := by
        rw [div_le_one hbQ]
        exact_mod_cast hle
      have hdiv0 : (0 : ℝ) ≤ (hammingCount H bitLen i j : ℝ) / (bitLen : ℝ) :=
        div_nonneg (Nat.cast_nonneg _) hbQ.le
      constructor
      · linarith
      · linarith

/-- The combined fast entry is symmetric. -/
theorem combinedFastEntry_comm (X : Nat → Nat → ℝ) (d : Nat) (H : Nat → Nat → Bool)
    (bitLen i j : Nat) :
    combinedFastEntry X d H bitLen i j = combinedFastEntry X d H bitLen j i := by
  rw [combinedFastEntry, combinedFastEntry, cosineSimEntry_comm, ahashSimEntry_comm]

/-- With nonnegative color entries the combined fast entry lies between 0
and 1. -/
theorem combinedFastEntry_mem (X : Nat → Nat → ℝ) (d : Nat) (H : Nat → Nat → Bool)
    (bitLen i j : Nat) (hX : ∀ a b, 0 ≤ X a b) :
    0 ≤ combinedFastEntry X d H bitLen i j ∧ combinedFastEntry X d H bitLen i j ≤ 1 := by
  obtain ⟨h1, h2⟩ := ahashSimEntry_mem H bitLen i j
  have h3 := cosineSimEntry_nonneg X d i j hX
  have h4 := cosineSimEntry_le_one X d i j
  rw [combinedFastEntry]
  constructor
  · linarith
  · linarith

/-- The diagonal combined fast entry is half the diagonal cosine plus one
half. -/
theorem combinedFastEntry_diag (X : Nat → Nat → ℝ) (d : Nat) (H : Nat → Nat → Bool)
    (bitLen i : Nat) :
    combinedFastEntry X d H bitLen i i = 1/2 * cosineSimEntry X d i i + 1/2 := by
  rw [combinedFastEntry, ahashSimEntry, if_pos rfl]
  ring

/-- The ORB matrix entry is symmetric. -/
theorem orbSimEntry_comm (p : Nat → Nat → ℝ) (i j : Nat) :
    orbSimEntry p i j = orbSimEntry p j i := by
  rw [orbSimEntry, orbSimEntry]
  by_cases h : i = j
  · subst h
    rfl
  · rw [if_neg h, if_neg (fun hc => h hc.symm), min_comm, max_comm]

/-- With a bounded per-pair score the ORB entry lies between 0 and 1. -/
theorem orbSimEntry_mem (p : Nat → Nat → ℝ) (i j : Nat)
    (hp : ∀ a b, 0 ≤ p a b ∧ p a b ≤ 1) :
    0 ≤ orbSimEntry p i j ∧ orbSimEntry p i j ≤ 1 := by
  rw [orbSimEntry]
  split
  · norm_num
  · exact hp _ _

/-- A blend of values from the unit interval stays in the unit
interval. -/
theorem hybridScore_mem (a b : ℝ) (ha : 0 ≤ a ∧ a ≤ 1) (hb : 0 ≤ b ∧ b ≤ 1) :
    0 ≤ hybridScore a b ∧ hybridScore a b ≤ 1 := by
  obtain ⟨ha0, ha1⟩ := ha
  obtain ⟨hb0, hb1⟩ := hb
  rw [hybridScore]
  split
  · constructor
    · linarith
    · linarith
  · split
    · constructor
      · linarith
      · linarith
    · constructor
      · linarith
      · linarith

/-- C1 counterexample: a project whose single image is entirely black has
the zero average-color vector, its cosine row norm is 0, and the final
blended matrix carries the diagonal value 0.85, not 1.0 as the claim
states. -/
theorem final_matrix_diag_counterexample :
    finalSimEntry (fun _ _ => 0) 3 (fun _ _ => false) 64 (fun _ _ => 0) 0 0 = 17/20
    ∧ finalSimEntry (fun _ _ => 0) 3 (fun _ _ => false) 64 (fun _ _ => 0) 0 0 ≠ 1 := by
  have hcos : cosineSimEntry (fun _ _ => (0 : ℝ)) 3 0 0 = 0 := by
    rw [cosineSimEntry]
    simp
  have horb : orbSimEntry (fun _ _ => (0 : ℝ)) 0 0 = 1 := by
    rw [orbSimEntry, if_pos rfl]
  have hval : finalSimEntry (fun _ _ => 0) 3 (fun _ _ => false) 64 (fun _ _ => 0) 0 0
      = 17/20 := by
    rw [finalSimEntry, combinedFastEntry_diag, hcos, horb, hybridScore,
      if_pos (by norm_num : (3 : ℝ)/10 < 1)]
    norm_num
  refine ⟨hval, ?_⟩
  rw [hval]
  norm_num

/-- C1 corrected: every final blended matrix entry is symmetric and lies
in the unit interval, and every diagonal entry lies in the interval from
0.85 up to but excluding 1: the cosine normalization divides by the row
norm plus 1e-8, so the diagonal cosine is strictly below 1 and the exact
diagonal value 1.0 claimed by the spec is never attained.  The
cv2-derived per-pair ORB scores are abstracted as a score function with
values in the unit interval, which the ORB score pipeline guarantees. -/
theorem final_matrix_properties (X : Nat → Nat → ℝ) (d : Nat) (H : Nat → Nat → Bool)
    (bitLen : Nat) (pairScore : Nat → Nat → ℝ) (i j : Nat)
    (hX : ∀ a b, 0 ≤ X a b)
    (hp : ∀ a b, 0 ≤ pairScore a b ∧ pairScore a b ≤ 1) :
    finalSimEntry X d H bitLen pairScore i j = finalSimEntry X d H bitLen pairScore j i
    ∧ 0 ≤ finalSimEntry X d H bitLen pairScore i j
    ∧ finalSimEntry X d H bitLen pairScore i j ≤ 1
    ∧ 17/20 ≤ finalSimEntry X d H bitLen pairScore i i
    ∧ finalSimEntry X d H bitLen pairScore i i < 1 := by
  have horb := orbSimEntry_mem pairScore i j hp
  have hfast := combinedFastEntry_mem X d H bitLen i j hX
  have hmem := hybridScore_mem _ _ horb hfast
  have horbd : orbSimEntry pairScore i i = 1 := by
    rw [orbSimEntry, if_pos rfl]
  have hdiag : finalSimEntry X d H bitLen pairScore i i
      = 7/10 + 3/10 * (1/2 * cosineSimEntry X d i i + 1/2) := by
    rw [finalSimEntry, combinedFastEntry_diag, horbd, hybridScore,
      if_pos (by norm_num : (3 : ℝ)/10 < 1)]
    ring
  have hd0 := cosineSimEntry_diag_nonneg X d i
  have hd1 := cosineSimEntry_diag_lt_one X d i
  refine ⟨?_, hmem.1, hmem.2, ?_, ?_⟩
  · rw [finalSimEntry, finalSimEntry, orbSimEntry_comm, combinedFastEntry_comm]
  · rw [hdiag]
    linarith
  · rw [hdiag]
    linarith

/-- Witness for the corrected C1: the all-zero color matrix and the
all-zero pair score satisfy both hypotheses, and the conclusion holds at
the first diagonal entry. -/
theorem final_matrix_properties_witness :
    ((∀ a b : Nat, (0 : ℝ) ≤ (fun _ _ => (0 : ℝ)) a b)
      ∧ (∀ a b : Nat, 0 ≤ (fun _ _ => (0 : ℝ)) a b ∧ (fun _ _ => (0 : ℝ)) a b ≤ 1))
    ∧ (finalSimEntry (fun _ _ => 0) 3 (fun _ _ => false) 64 (fun _ _ => 0) 0 1
        = finalSimEntry (fun _ _ => 0) 3 (fun _ _ => false) 64 (fun _ _ => 0) 1 0
      ∧ 0 ≤ finalSimEntry (fun _ _ => 0) 3 (fun _ _ => false) 64 (fun _ _ => 0) 0 1
      ∧ finalSimEntry (fun _ _ => 0) 3 (fun _ _ => false) 64 (fun _ _ => 0) 0 1 ≤ 1
      ∧ 17/20 ≤ finalSimEntry (fun _ _ => 0) 3 (fun _ _ => false) 64 (fun _ _ => 0) 0 0
      ∧ finalSimEntry (fun _ _ => 0) 3 (fun _ _ => false) 64 (fun _ _ => 0) 0 0 < 1) :=
  ⟨⟨fun _ _ => le_refl 0, fun _ _ => ⟨le_refl 0, by norm_num⟩⟩,
    final_matrix_properties (fun _ _ => 0) 3 (fun _ _ => false) 64 (fun _ _ => 0) 0 1
      (fun _ _ => le_refl 0) (fun _ _ => ⟨le_refl 0, by norm_num⟩)⟩

end ImageTrace
